import Mathlib

/-!
Verification of the emoji-database generation scripts.

The repository contains two variants of the generator script; we embed the
core logic of both:
* the cheerio-based variant (called "P0" below where the two differ), whose
  `parseEmojiData` uses an extended keyword set and stores `code_points`;
* `script/generate-emoji-counts.js` (called "S" below), whose
  `parseEmojiData` uses a narrower keyword set and whose `parseEmojiCounts`
  uses a column-header strategy with a hardcoded `dual_skin_tone_support`.

JavaScript objects are embedded as insertion-ordered association lists
(`insertEntry` keeps the first-insertion position on overwrite, as JS string
keys do for non-integer-like keys such as emoji sequences and group names).
Emoji key strings are embedded as their code-point sequences (`List Nat`);
string concatenation with a modifier corresponds to list append.  `NaN` of
JS number arithmetic is embedded as `none : Option Int`, with
NaN-propagating addition and subtraction.  A thrown exception is embedded
as `Except.error`.
-/

/-- Whitespace as trimmed by `String.prototype.trim` (restricted to the
ASCII whitespace that can occur in the scraped cells). -/
def isSpaceChar (c : Char) : Bool :=
  c = ' ' || c = '\t' || c = '\n' || c = '\r'

/-- `trim` on a character list: drop whitespace at both ends. -/
def trimList (l : List Char) : List Char :=
  ((l.dropWhile isSpaceChar).reverse.dropWhile isSpaceChar).reverse

/-- Embeds `text.trim()`. -/
def trimStr (s : String) : String := ⟨trimList s.data⟩

/-- Embeds `str.split(' ')` on a character list: split at every single
space, keeping empty segments (as JS does). -/
def splitSpChars : List Char → List (List Char)
  | [] => [[]]
  | c :: rest =>
    if c = ' ' then [] :: splitSpChars rest
    else
      match splitSpChars rest with
      | t :: ts => (c :: t) :: ts
      | [] => [[c]]

/-- Embeds `str.split(' ')`. -/
def splitSp (s : String) : List String :=
  (splitSpChars s.data).map (fun l => ⟨l⟩)

/-- Value of a hexadecimal digit character, `none` if not a hex digit. -/
def hexDigitVal (c : Char) : Option Nat :=
  if '0' ≤ c ∧ c ≤ '9' then some (c.toNat - '0'.toNat)
  else if 'a' ≤ c ∧ c ≤ 'f' then some (c.toNat - 'a'.toNat + 10)
  else if 'A' ≤ c ∧ c ≤ 'F' then some (c.toNat - 'A'.toNat + 10)
  else none

/-- Accumulate the longest run of hex digits (JS `parseInt` stops at the
first non-digit character). -/
def hexRunAux : List Char → Nat → Nat
  | [], acc => acc
  | c :: rest, acc =>
    match hexDigitVal c with
    | some d => hexRunAux rest (acc * 16 + d)
    | none => acc

/-- Longest hex-digit run at the front of the list; `none` when there is
no leading hex digit at all (JS `parseInt` yields `NaN` then). -/
def parseHexDigits : List Char → Option Nat
  | [] => none
  | c :: rest =>
    match hexDigitVal c with
    | none => none
    | some d => some (hexRunAux rest d)

/-- Embeds `parseInt(s, 16)`: trim, optional sign, optional `0x`/`0X`,
then the longest run of hex digits; `none` embeds `NaN`. -/
def parseIntHex (s : String) : Option Int :=
  let l := trimList s.data
  let signed : Bool × List Char :=
    match l with
    | '-' :: rest => (true, rest)
    | '+' :: rest => (false, rest)
    | _ => (false, l)
  let l2 : List Char :=
    match signed.2 with
    | '0' :: 'x' :: rest => rest
    | '0' :: 'X' :: rest => rest
    | _ => signed.2
  match parseHexDigits l2 with
  | none => none
  | some n => some (if signed.1 then -(n : Int) else (n : Int))

/-- Value of a decimal digit character. -/
def decDigitVal (c : Char) : Option Nat :=
  if '0' ≤ c ∧ c ≤ '9' then some (c.toNat - '0'.toNat) else none

/-- Accumulate the longest run of decimal digits. -/
def decRunAux : List Char → Nat → Nat
  | [], acc => acc
  | c :: rest, acc =>
    match decDigitVal c with
    | some d => decRunAux rest (acc * 10 + d)
    | none => acc

/-- Longest decimal-digit run at the front, `none` if there is none. -/
def parseDecDigits : List Char → Option Nat
  | [] => none
  | c :: rest =>
    match decDigitVal c with
    | none => none
    | some d => some (decRunAux rest d)

/-- Embeds `parseInt(s, 10)`: trim, optional sign, longest decimal run;
`none` embeds `NaN`. -/
def parseIntDec (s : String) : Option Int :=
  let l := trimList s.data
  let signed : Bool × List Char :=
    match l with
    | '-' :: rest => (true, rest)
    | '+' :: rest => (false, rest)
    | _ => (false, l)
  match parseDecDigits signed.2 with
  | none => none
  | some n => some (if signed.1 then -(n : Int) else (n : Int))

/-- All-decimal value of an entire character list (for `Number(s)`, which
requires the whole string to be numeric). -/
def decValAll : List Char → Nat → Option Nat
  | [], acc => some acc
  | c :: rest, acc =>
    match decDigitVal c with
    | some d => decValAll rest (acc * 10 + d)
    | none => none

/-- Embeds `Number(s)` on the integer strings appearing in count cells:
trimmed empty string is `0`, otherwise an optional sign followed by
decimal digits consuming the entire string; `none` embeds `NaN`. -/
def numberOf (s : String) : Option Int :=
  let l := trimList s.data
  match l with
  | [] => some 0
  | _ =>
    let signed : Bool × List Char :=
      match l with
      | '-' :: rest => (true, rest)
      | '+' :: rest => (false, rest)
      | _ => (false, l)
    match signed.2 with
    | [] => none
    | l2 =>
      match decValAll l2 0 with
      | none => none
      | some n => some (if signed.1 then -(n : Int) else (n : Int))

/-- Embeds `String.fromCodePoint(...codePoints)`: `none` when some code
point is `NaN` (a failed `parseInt`) or out of the Unicode range, which in
JS raises a `RangeError`. -/
def fromCodePoints : List (Option Int) → Option (List Nat)
  | [] => some []
  | none :: _ => none
  | some v :: rest =>
    if 0 ≤ v ∧ v ≤ 0x10FFFF then (fromCodePoints rest).map (fun t => v.toNat :: t)
    else none

/-- ASCII lowercase, embedding `toLowerCase` on the ASCII names and
keywords involved. -/
def lowerChar (c : Char) : Char :=
  if 'A' ≤ c ∧ c ≤ 'Z' then Char.ofNat (c.toNat + 32) else c

/-- Is `sub` an initial segment of `l`? -/
def firstSeg : List Char → List Char → Bool
  | [], _ => true
  | _ :: _, [] => false
  | a :: as, b :: bs => a = b && firstSeg as bs

/-- Is `sub` a contiguous segment of `l` (JS `String.prototype.includes`)? -/
def hasSub (sub : List Char) : List Char → Bool
  | [] => firstSeg sub []
  | c :: rest => firstSeg sub (c :: rest) || hasSub sub rest

/-- Embeds `name.toLowerCase().includes(kw)` for the lowercase keyword
literals of the scripts. -/
def nameHas (name kw : String) : Bool :=
  hasSub kw.data (name.data.map lowerChar)

/-- Skin-tone capability classifier of the cheerio variant (the extended
keyword set, including the duplicated `standing` of the source). -/
def hasSkinToneSupport (name : String) : Bool :=
  nameHas name "hand" ||
  nameHas name "person" ||
  nameHas name "people" ||
  nameHas name "face" ||
  nameHas name "gesture" ||
  nameHas name "walking" ||
  nameHas name "standing" ||
  nameHas name "kneeling" ||
  nameHas name "running" ||
  nameHas name "standing" ||
  nameHas name "sitting"

/-- Dual-skin-tone classifier of the cheerio variant. -/
def hasDualSkinToneSupport (name : String) : Bool :=
  nameHas name "handshake" ||
  nameHas name "people holding hands" ||
  nameHas name "couple" ||
  nameHas name "family" ||
  nameHas name "kiss" ||
  nameHas name "couple with heart"

/-- Skin-tone capability classifier of `generate-emoji-counts.js`. -/
def hasSkinToneSupportS (name : String) : Bool :=
  nameHas name "hand" || nameHas name "person" || nameHas name "people"

/-- Dual-skin-tone classifier of `generate-emoji-counts.js`. -/
def hasDualSkinToneSupportS (name : String) : Bool :=
  nameHas name "handshake" || nameHas name "people holding hands"

/-- The five skin tone modifier code points. -/
def SKIN_TONE_MODIFIERS : List Nat :=
  [0x1F3FB, 0x1F3FC, 0x1F3FD, 0x1F3FE, 0x1F3FF]

/-- Embeds `getSkinToneName`. -/
def getSkinToneName (m : Nat) : String :=
  if m = 0x1F3FB then "light skin tone"
  else if m = 0x1F3FC then "medium-light skin tone"
  else if m = 0x1F3FD then "medium skin tone"
  else if m = 0x1F3FE then "medium-dark skin tone"
  else if m = 0x1F3FF then "dark skin tone"
  else "unknown skin tone"

/-- An emoji key: the string of code points identifying the emoji. -/
abbrev Key := List Nat

/-- The record stored per emoji.  Fields absent in the JS object are
embedded as `false` (for the boolean flags read through falsy `undefined`)
and `none` (for `base_emoji` and the `code_points` field that only the
cheerio variant stores). -/
structure EmojiRecord where
  name : String
  group : String
  skin_tone_support : Bool
  dual_skin_tone_support : Bool
  is_variant : Bool
  base_emoji : Option Key
  code_points : Option Key
deriving DecidableEq, Repr

/-- JS object assignment `obj[k] = v`: replace in place when the key is
present (string keys keep their first-insertion position), append
otherwise. -/
def insertEntry {κ β : Type} [DecidableEq κ] (m : List (κ × β)) (k : κ) (v : β) :
    List (κ × β) :=
  if m.any (fun p => p.1 == k) then
    m.map (fun p => if p.1 == k then (k, v) else p)
  else m ++ [(k, v)]

/-- JS object lookup `obj[k]`. -/
def lookupKey {κ β : Type} [DecidableEq κ] (m : List (κ × β)) (k : κ) : Option β :=
  (m.find? (fun p => p.1 == k)).map (fun p => p.2)

/-- A row of the emoji table; `none` embeds a missing `.code`/`.name`/
`.group` cell. -/
structure SourceRow where
  code : Option String
  name : Option String
  group : Option String
deriving DecidableEq

/-- The base record written by the cheerio `parseEmojiData`. -/
def baseRecord (emoji : Key) (name group : String) (single dual : Bool) : EmojiRecord :=
  ⟨name, group, single, dual, false, none, some emoji⟩

/-- A single-tone variant record of the cheerio `parseEmojiData` (its JS
object carries no `dual_skin_tone_support` field, read back as falsy). -/
def singleVariantRecord (emoji : Key) (name group : String) (mod : Nat) : EmojiRecord :=
  ⟨name ++ " (" ++ getSkinToneName mod ++ ")", group, true, false, true,
    some emoji, some (emoji ++ [mod])⟩

/-- A dual-tone variant record of the cheerio `parseEmojiData`. -/
def dualVariantRecord (emoji : Key) (name group : String) (m1 m2 : Nat) : EmojiRecord :=
  ⟨name ++ " (" ++ getSkinToneName m1 ++ " and " ++ getSkinToneName m2 ++ ")",
    group, true, true, true, some emoji, some (emoji ++ [m1, m2])⟩

/-- The sequence of object assignments the cheerio `parseEmojiData`
performs for one parsed row: the base record, then (when skin-tone
capable) the five single-tone variants, then (when additionally
dual-capable) the twenty-five ordered dual-tone combinations. -/
def rowEntriesCore (emoji : Key) (name group : String) : List (Key × EmojiRecord) :=
  [(emoji, baseRecord emoji name group (hasSkinToneSupport name) (hasDualSkinToneSupport name))]
  ++ (if hasSkinToneSupport name then
        SKIN_TONE_MODIFIERS.map
          (fun mod => (emoji ++ [mod], singleVariantRecord emoji name group mod))
        ++ (if hasDualSkinToneSupport name then
              SKIN_TONE_MODIFIERS.flatMap (fun m1 =>
                SKIN_TONE_MODIFIERS.map (fun m2 =>
                  (emoji ++ [m1, m2], dualVariantRecord emoji name group m1 m2)))
            else [])
      else [])

/-- One iteration of the cheerio `parseEmojiData` row loop: skip the row
when a semantic cell is missing; raise when the code text does not decode
(`String.fromCodePoint` on `NaN`); otherwise perform the assignments. -/
def processRow (m : List (Key × EmojiRecord)) (row : SourceRow) :
    Except String (List (Key × EmojiRecord)) :=
  match row.code, row.name, row.group with
  | some codeText, some nameText, some groupText =>
    match fromCodePoints ((splitSp (trimStr codeText)).map parseIntHex) with
    | none => .error "RangeError: invalid code point"
    | some emoji =>
      .ok ((rowEntriesCore emoji (trimStr nameText) (trimStr groupText)).foldl
            (fun acc e => insertEntry acc e.1 e.2) m)
  | _, _, _ => .ok m

/-- The row loop of the cheerio `parseEmojiData`; a thrown `RangeError`
aborts the whole parse. -/
def parseEmojiDataGo : List SourceRow → List (Key × EmojiRecord) →
    Except String (List (Key × EmojiRecord))
  | [], m => .ok m
  | row :: rest, m =>
    match processRow m row with
    | .error e => .error e
    | .ok m1 => parseEmojiDataGo rest m1

/-- The cheerio `parseEmojiData`. -/
def parseEmojiData (rows : List SourceRow) : Except String (List (Key × EmojiRecord)) :=
  parseEmojiDataGo rows []

/-- The base record written by the `generate-emoji-counts.js`
`parseEmojiData` (no `code_points` field). -/
def baseRecordS (name group : String) (single dual : Bool) : EmojiRecord :=
  ⟨name, group, single, dual, false, none, none⟩

/-- A single-tone variant record of `generate-emoji-counts.js`. -/
def singleVariantRecordS (emoji : Key) (name group : String) (mod : Nat) : EmojiRecord :=
  ⟨name ++ " (" ++ getSkinToneName mod ++ ")", group, true, false, true,
    some emoji, none⟩

/-- A dual-tone variant record of `generate-emoji-counts.js`. -/
def dualVariantRecordS (emoji : Key) (name group : String) (m1 m2 : Nat) : EmojiRecord :=
  ⟨name ++ " (" ++ getSkinToneName m1 ++ " and " ++ getSkinToneName m2 ++ ")",
    group, true, true, true, some emoji, none⟩

/-- The per-row assignments of the `generate-emoji-counts.js`
`parseEmojiData` (narrower classifiers, no `code_points`). -/
def rowEntriesCoreS (emoji : Key) (name group : String) : List (Key × EmojiRecord) :=
  [(emoji, baseRecordS name group (hasSkinToneSupportS name) (hasDualSkinToneSupportS name))]
  ++ (if hasSkinToneSupportS name then
        SKIN_TONE_MODIFIERS.map
          (fun mod => (emoji ++ [mod], singleVariantRecordS emoji name group mod))
        ++ (if hasDualSkinToneSupportS name then
              SKIN_TONE_MODIFIERS.flatMap (fun m1 =>
                SKIN_TONE_MODIFIERS.map (fun m2 =>
                  (emoji ++ [m1, m2], dualVariantRecordS emoji name group m1 m2)))
            else [])
      else [])

/-- One iteration of the `generate-emoji-counts.js` row loop. -/
def processRowS (m : List (Key × EmojiRecord)) (row : SourceRow) :
    Except String (List (Key × EmojiRecord)) :=
  match row.code, row.name, row.group with
  | some codeText, some nameText, some groupText =>
    match fromCodePoints ((splitSp (trimStr codeText)).map parseIntHex) with
    | none => .error "RangeError: invalid code point"
    | some emoji =>
      .ok ((rowEntriesCoreS emoji (trimStr nameText) (trimStr groupText)).foldl
            (fun acc e => insertEntry acc e.1 e.2) m)
  | _, _, _ => .ok m

/-- The row loop of the `generate-emoji-counts.js` `parseEmojiData`. -/
def parseEmojiDataGoS : List SourceRow → List (Key × EmojiRecord) →
    Except String (List (Key × EmojiRecord))
  | [], m => .ok m
  | row :: rest, m =>
    match processRowS m row with
    | .error e => .error e
    | .ok m1 => parseEmojiDataGoS rest m1

/-- The `generate-emoji-counts.js` `parseEmojiData`. -/
def parseEmojiDataS (rows : List SourceRow) : Except String (List (Key × EmojiRecord)) :=
  parseEmojiDataGoS rows []

/-- NaN-propagating subtraction on JS numbers (`undefined` participating
in arithmetic also yields `NaN`, likewise embedded as `none`). -/
def nanSub : Option Int → Option Int → Option Int
  | some a, some b => some (a - b)
  | _, _ => none

/-- NaN-propagating addition on JS numbers. -/
def nanAdd : Option Int → Option Int → Option Int
  | some a, some b => some (a + b)
  | _, _ => none

/-- A row of the counts table: the text of its cells in order. -/
structure CountRow where
  cells : List String
deriving DecidableEq

/-- The statistics object built by the cheerio `parseEmojiCounts`.
`total_with_variations` and `skin_tone_variations` start out `undefined`
(`none`); `component` starts at `0` but can be overwritten with `NaN`. -/
structure StatsP where
  total_without_skin_tone_variations : Option Int
  component : Option Int
  dual_skin_tone_support : Int
  groups : List (String × Int)
  total_with_variations : Option Int
  skin_tone_variations : Option Int
deriving DecidableEq, Repr

/-- The initial statistics object of the cheerio `parseEmojiCounts`. -/
def initStatsP : StatsP := ⟨some 0, some 0, 0, [], none, none⟩

/-- Cell text at an index; cheerio yields the empty string for a missing
cell (`$(undefined).text()` is `""`). -/
def getCellText (row : CountRow) (i : Nat) : String :=
  (row.cells.get? i).getD ""

/-- One iteration of the cheerio `parseEmojiCounts` row loop: dispatch on
the trimmed label, recording a per-category count for any other label
whose count parses and that is not the literal `Group`. -/
def stepCountRow (s : StatsP) (row : CountRow) : StatsP :=
  let category := trimStr (getCellText row 0)
  let count := parseIntDec (trimStr (getCellText row 1))
  if category = "Component" then { s with component := count }
  else if category = "Total" then { s with total_with_variations := count }
  else if category = "With skin tone variations" then { s with skin_tone_variations := count }
  else
    match count with
    | some n => if category = "Group" then s else { s with groups := insertEntry s.groups category n }
    | none => s

/-- The cheerio `parseEmojiCounts`: skip the first row as a header, scan
the rest, then compute the reconciled total (NaN-propagating when a label
was never seen). -/
def parseEmojiCounts (rows : List CountRow) : StatsP :=
  let s := (rows.drop 1).foldl stepCountRow initStatsP
  { s with total_without_skin_tone_variations :=
      nanSub (nanSub s.total_with_variations s.skin_tone_variations) s.component }

/-- The statistics object of the `generate-emoji-counts.js`
`parseEmojiCounts`; its per-group counts can store `NaN`. -/
structure StatsS where
  total_without_skin_tone_variations : Option Int
  component : Option Int
  dual_skin_tone_support : Int
  groups : List (String × Option Int)
deriving DecidableEq, Repr

/-- The initial statistics object of `generate-emoji-counts.js`. -/
def initStatsS : StatsS := ⟨some 0, some 0, 0, []⟩

/-- The nine group-name column headers hardcoded in
`generate-emoji-counts.js`. -/
def GROUP_NAMES : List String :=
  ["Smileys & Emotion", "People & Body", "Animals & Nature", "Food & Drink",
   "Travel & Places", "Activities", "Objects", "Symbols", "Flags"]

/-- The column loop of the `generate-emoji-counts.js` `parseEmojiCounts`:
pair each header cell with the cell at the same index of the last row;
reading past the end of the last row throws (`undefined.text`). -/
def columnScanGo (s : StatsS) : List String → List String → Except String StatsS
  | [], _ => .ok s
  | col :: restHead, totals =>
    match totals with
    | [] => .error "TypeError: cannot read text of undefined"
    | t :: restTot =>
      let count := numberOf t
      let s1 :=
        if GROUP_NAMES.contains col then { s with groups := insertEntry s.groups col count }
        else if col = "Component" then { s with component := count }
        else s
      columnScanGo s1 restHead restTot

/-- The dark-skin-tone marker character used to find variation rows. -/
def skinToneMarkChar : Char := Char.ofNat 0x1F3FF

/-- Embeds `row.childNodes[0].text.match('🏿')` being non-null. -/
def hasToneMark (s : String) : Bool :=
  s.data.any (fun c => c == skinToneMarkChar)

/-- Pair every row with its first cell, throwing when some row has none
(the filter callback dereferences `childNodes[0]` on every row). -/
def allFirstCells : List CountRow → Except String (List (CountRow × String))
  | [] => .ok []
  | r :: rest =>
    match r.cells.head? with
    | none => .error "TypeError: cannot read text of undefined"
    | some c =>
      match allFirstCells rest with
      | .error e => .error e
      | .ok ps => .ok ((r, c) :: ps)

/-- The body of the `generate-emoji-counts.js` `parseEmojiCounts` up to
(but not including) the final hardcoded `dual_skin_tone_support`
assignment: header/total row access, column scan, skin-tone-row sum, and
the reconciling subtraction. -/
def countsCore (rows : List CountRow) : Except String StatsS :=
  match rows with
  | [] => .error "TypeError: cannot read childNodes of undefined"
  | headRow :: rest =>
    let lastRow := ((headRow :: rest).getLast?).getD headRow
    match lastRow.cells.getLast? with
    | none => .error "TypeError: cannot read text of undefined"
    | some lastCell =>
      match columnScanGo { initStatsS with total_without_skin_tone_variations := numberOf lastCell }
              headRow.cells lastRow.cells with
      | .error e => .error e
      | .ok s1 =>
        match allFirstCells (headRow :: rest) with
        | .error e => .error e
        | .ok pairs =>
          let toned := (pairs.filter (fun p => hasToneMark p.2)).map Prod.fst
          let counts := toned.map (fun r => numberOf ((r.cells.getLast?).getD ""))
          let stv := counts.foldl nanAdd (some 0)
          .ok { s1 with total_without_skin_tone_variations :=
                  nanSub (nanSub s1.total_without_skin_tone_variations stv) s1.component }

/-- The `generate-emoji-counts.js` `parseEmojiCounts`: the core scan
followed by the unconditional `stats.dual_skin_tone_support = 13`. -/
def parseEmojiCountsS (rows : List CountRow) : Except String StatsS :=
  match countsCore rows with
  | .error e => .error e
  | .ok s => .ok { s with dual_skin_tone_support := 13 }

/-- A member entry of a group list (emoji key, name, and the two
capability flags, not the full record). -/
structure GroupMember where
  emoji : Key
  name : String
  skin_tone_support : Bool
  dual_skin_tone_support : Bool
deriving DecidableEq, Repr

/-- A category group: its name and member list. -/
structure GroupData where
  name : String
  emojis : List GroupMember
deriving DecidableEq, Repr

/-- The member object pushed by `generateGroupData`. -/
def mkMember (k : Key) (r : EmojiRecord) : GroupMember :=
  ⟨k, r.name, r.skin_tone_support, r.dual_skin_tone_support⟩

/-- One iteration of the `generateGroupData` loop: create the group on
first sight of its name, then push the member when the record is not a
variant. -/
def groupStep (gs : List GroupData) (entry : Key × EmojiRecord) : List GroupData :=
  let g := entry.2.group
  let gs1 := if gs.any (fun x => x.name == g) then gs else gs ++ [⟨g, []⟩]
  if entry.2.is_variant then gs1
  else gs1.map (fun x => if x.name == g then ⟨x.name, x.emojis ++ [mkMember entry.1 entry.2]⟩ else x)

/-- `generateGroupData` (identical in both script variants): fold the
emoji mapping in order; `Object.values` returns the groups in
first-insertion order. -/
def generateGroupData (m : List (Key × EmojiRecord)) : List GroupData :=
  m.foldl groupStep []

/-- First-occurrence subsequence of a list of names, relative to a set of
names already seen. -/
def firstOccurAux (seen : List String) : List String → List String
  | [] => []
  | x :: xs => if x ∈ seen then firstOccurAux seen xs else x :: firstOccurAux (x :: seen) xs

/-- The names of a list in first-occurrence order. -/
def firstOccur (l : List String) : List String := firstOccurAux [] l

/-- UTF-16 code units of a code point (JS strings compare by these). -/
def utf16Units (cp : Nat) : List Nat :=
  if cp < 0x10000 then [cp]
  else [0xD800 + (cp - 0x10000) / 0x400, 0xDC00 + (cp - 0x10000) % 0x400]

/-- The UTF-16 code-unit sequence of an emoji key string. -/
def keyUnits (k : Key) : List Nat := k.flatMap utf16Units

/-- Lexicographic comparison of code-unit sequences. -/
def lexLe : List Nat → List Nat → Bool
  | [], _ => true
  | _ :: _, [] => false
  | a :: as, b :: bs => if a < b then true else if a = b then lexLe as bs else false

/-- The default JS `Array.prototype.sort` comparison on emoji key
strings: lexicographic on their UTF-16 code units. -/
def keyLe (a b : Key) : Bool := lexLe (keyUnits a) (keyUnits b)

/-- Embeds `Object.keys(emojiData).sort()` applied to a key list. -/
def sortKeys (l : List Key) : List Key := l.mergeSort keyLe

/-- The `data-ordered-emoji.json` list: the mapping's keys, sorted. -/
def orderedEmojis (m : List (Key × EmojiRecord)) : List Key :=
  sortKeys (m.map Prod.fst)

/-! ### Supporting lemmas -/

/-- `lexLe` is total. -/
theorem lexLe_total : ∀ a b : List Nat, (lexLe a b || lexLe b a) = true
  | [], _ => by simp [lexLe]
  | _ :: _, [] => by simp [lexLe]
  | a :: as, b :: bs => by
    simp only [lexLe]
    rcases Nat.lt_trichotomy a b with h | h | h
    · simp [h]
    · subst h
      simpa [Nat.lt_irrefl] using lexLe_total as bs
    · simp [h, Nat.ne_of_gt h, Nat.not_lt.mpr (Nat.le_of_lt h), Nat.ne_of_lt h]

/-- `lexLe` is transitive. -/
theorem lexLe_trans : ∀ a b c : List Nat,
    lexLe a b = true → lexLe b c = true → lexLe a c = true
  | [], _, _, _, _ => by simp [lexLe]
  | _ :: _, [], _, h, _ => by simp [lexLe] at h
  | _ :: _, _ :: _, [], _, h => by simp [lexLe] at h
  | a :: as, b :: bs, c :: cs, h1, h2 => by
    simp only [lexLe] at h1 h2 ⊢
    by_cases hab : a < b
    · by_cases hbc : b < c
      · simp [Nat.lt_trans hab hbc]
      · simp only [hbc, if_false] at h2
        by_cases hbc2 : b = c
        · subst hbc2; simp [hab]
        · simp [hbc2] at h2
    · simp only [hab, if_false] at h1
      by_cases hab2 : a = b
      · subst hab2
        simp only [hab] at h1
        by_cases hac : a < c
        · simp [hac]
        · simp only [hac, if_false] at h2 ⊢
          by_cases hac2 : a = c
          · simp only [hac2, if_true] at h2 ⊢
            exact lexLe_trans as bs cs (by simpa using h1) h2
          · simp [hac2] at h2
      · simp [hab2] at h1

/-- `keyLe` is total. -/
theorem keyLe_total (a b : Key) : (keyLe a b || keyLe b a) = true :=
  lexLe_total (keyUnits a) (keyUnits b)

/-- `keyLe` is transitive. -/
theorem keyLe_trans (a b c : Key) (h1 : keyLe a b) (h2 : keyLe b c) : keyLe a c :=
  lexLe_trans (keyUnits a) (keyUnits b) (keyUnits c) h1 h2

/-! ### Claims -/

/-- **C8.** The ordered-emoji list is produced by lexicographically
sorting the keys of the emoji mapping, and applying the sort to the
already-sorted list leaves it unchanged (idempotent, deterministic). -/
theorem C8_ordered_sort_idempotent :
    ∀ m : List (Key × EmojiRecord),
      orderedEmojis m = sortKeys (m.map Prod.fst)
      ∧ sortKeys (orderedEmojis m) = orderedEmojis m := by
  intro m
  refine ⟨rfl, ?_⟩
  unfold orderedEmojis sortKeys
  exact List.mergeSort_of_sorted
    (List.sorted_mergeSort (fun a b c => keyLe_trans a b c) keyLe_total (m.map Prod.fst))

theorem C8_ordered_sort_idempotent_witness :
    sortKeys (orderedEmojis [([0x1F600], baseRecord [0x1F600] "grinning face" "Smileys & Emotion" false false)])
      = orderedEmojis [([0x1F600], baseRecord [0x1F600] "grinning face" "Smileys & Emotion" false false)] :=
  (C8_ordered_sort_idempotent [([0x1F600], baseRecord [0x1F600] "grinning face" "Smileys & Emotion" false false)]).2

/-- The end-to-end scenario-1 row. -/
def grinningRow : SourceRow :=
  ⟨some "1F600", some "grinning face", some "Smileys & Emotion"⟩

/-- **C5 counterexample.** In the cheerio variant the name
`grinning face` matches the `face` keyword, so the produced record has
`skin_tone_support = true` and five single-tone variants are generated
(six entries in total), contradicting the claimed record with both flags
false and no variants. -/
theorem C5_counterexample :
    (parseEmojiData [grinningRow]).map
        (fun m => ((lookupKey m [0x1F600]).map (fun r => r.skin_tone_support), m.length))
      = .ok (some true, 6) := by rfl

/-- **C5 amended.** The claimed record (both flags false, no variants) is
what the `generate-emoji-counts.js` `parseEmojiData` produces for the
`1F600` row; the cheerio variant instead classifies the name as
skin-tone-capable (`face` keyword) and emits five single-tone variants. -/
theorem C5_grinning_face :
    parseEmojiDataS [grinningRow]
        = .ok [([0x1F600], ⟨"grinning face", "Smileys & Emotion", false, false, false, none, none⟩)]
    ∧ (parseEmojiData [grinningRow]).map
        (fun m => ((lookupKey m [0x1F600]).map
            (fun r => (r.name, r.group, r.skin_tone_support, r.dual_skin_tone_support)), m.length))
      = .ok (some ("grinning face", "Smileys & Emotion", true, false), 6) := by
  exact ⟨by rfl, by rfl⟩

/-- **C1.** For a row classified skin-tone-capable, the per-row
assignments of `parseEmojiData` contain exactly the five single-tone
variant records (one per modifier, keyed base + modifier, named
`name (modifier name)`, `is_variant` true, `base_emoji` the base key),
and, when the name is additionally dual-capable, exactly the twenty-five
ordered dual-tone combinations keyed base + modifier1 + modifier2. -/
theorem C1_variant_expansion :
    ∀ (emoji : Key) (name group : String), hasSkinToneSupport name = true →
      ((rowEntriesCore emoji name group).filter
          (fun e => e.2.is_variant && !e.2.dual_skin_tone_support)
        = SKIN_TONE_MODIFIERS.map (fun mod => (emoji ++ [mod], singleVariantRecord emoji name group mod)))
      ∧ (SKIN_TONE_MODIFIERS.map
          (fun mod => (emoji ++ [mod], singleVariantRecord emoji name group mod))).length = 5
      ∧ (∀ mod : Nat,
          (singleVariantRecord emoji name group mod).name = name ++ " (" ++ getSkinToneName mod ++ ")"
          ∧ (singleVariantRecord emoji name group mod).is_variant = true
          ∧ (singleVariantRecord emoji name group mod).base_emoji = some emoji)
      ∧ (hasDualSkinToneSupport name = true →
          ((rowEntriesCore emoji name group).filter
              (fun e => e.2.is_variant && e.2.dual_skin_tone_support)
            = SKIN_TONE_MODIFIERS.flatMap (fun m1 => SKIN_TONE_MODIFIERS.map (fun m2 =>
                (emoji ++ [m1, m2], dualVariantRecord emoji name group m1 m2))))
          ∧ (SKIN_TONE_MODIFIERS.flatMap (fun m1 => SKIN_TONE_MODIFIERS.map (fun m2 =>
              (emoji ++ [m1, m2], dualVariantRecord emoji name group m1 m2)))).length = 25)
      ∧ (hasDualSkinToneSupport name = false →
          (rowEntriesCore emoji name group).filter
              (fun e => e.2.is_variant && e.2.dual_skin_tone_support) = []) := by
  intro emoji name group hs
  refine ⟨?_, by simp [SKIN_TONE_MODIFIERS], fun mod => ⟨rfl, rfl, rfl⟩, ?_, ?_⟩
  · by_cases hd : hasDualSkinToneSupport name = true <;>
      simp [rowEntriesCore, hs, hd, SKIN_TONE_MODIFIERS, baseRecord,
        singleVariantRecord, dualVariantRecord, List.filter]
  · intro hd
    refine ⟨?_, by simp [SKIN_TONE_MODIFIERS]⟩
    simp [rowEntriesCore, hs, hd, SKIN_TONE_MODIFIERS, baseRecord,
      singleVariantRecord, dualVariantRecord, List.filter]
  · intro hd
    simp [rowEntriesCore, hs, hd, SKIN_TONE_MODIFIERS, baseRecord,
      singleVariantRecord, List.filter]

theorem C1_variant_expansion_witness :
    hasSkinToneSupport "handshake" = true
    ∧ ((rowEntriesCore [0x1F91D] "handshake" "People & Body").filter
          (fun e => e.2.is_variant && !e.2.dual_skin_tone_support)
        = SKIN_TONE_MODIFIERS.map (fun mod =>
            ([0x1F91D] ++ [mod], singleVariantRecord [0x1F91D] "handshake" "People & Body" mod))) :=
  ⟨by decide, (C1_variant_expansion [0x1F91D] "handshake" "People & Body" (by decide)).1⟩

/-- **C9.** The name `family` matches the dual-skin-tone keyword set but
not the single-skin-tone set of the cheerio variant; any such row yields
a base record with `dual_skin_tone_support = true`,
`skin_tone_support = false`, and generates no variant records at all
(the dual expansion is nested inside the single-tone branch). -/
theorem C9_dual_only_no_variants :
    hasDualSkinToneSupport "family" = true
    ∧ hasSkinToneSupport "family" = false
    ∧ (∀ (emoji : Key) (name group : String),
        hasDualSkinToneSupport name = true → hasSkinToneSupport name = false →
          rowEntriesCore emoji name group = [(emoji, baseRecord emoji name group false true)])
    ∧ parseEmojiData [⟨some "1F46A", some "family", some "People & Body"⟩]
        = .ok [([0x1F46A], baseRecord [0x1F46A] "family" "People & Body" false true)] := by
  refine ⟨by decide, by decide, ?_, by rfl⟩
  intro emoji name group hd hs
  simp [rowEntriesCore, hs, hd]

theorem C9_dual_only_no_variants_witness :
    rowEntriesCore [0x1F46A] "family" "People & Body"
      = [([0x1F46A], baseRecord [0x1F46A] "family" "People & Body" false true)] :=
  C9_dual_only_no_variants.2.2.1 [0x1F46A] "family" "People & Body" (by decide) (by decide)

/-- `stepCountRow` leaves `total_with_variations` unchanged on a row whose
label is not `Total`. -/
theorem stepCountRow_total_of_ne (s : StatsP) (row : CountRow)
    (h : trimStr (getCellText row 0) ≠ "Total") :
    (stepCountRow s row).total_with_variations = s.total_with_variations := by
  by_cases h1 : trimStr (getCellText row 0) = "Component"
  · simp [stepCountRow, h1]
  · by_cases h3 : trimStr (getCellText row 0) = "With skin tone variations"
    · simp [stepCountRow, h1, h, h3]
    · cases hc : parseIntDec (trimStr (getCellText row 1)) with
      | none => simp [stepCountRow, h1, h, h3, hc]
      | some n =>
        by_cases h4 : trimStr (getCellText row 0) = "Group" <;>
          simp [stepCountRow, h1, h, h3, hc, h4]

/-- `stepCountRow` leaves `skin_tone_variations` unchanged on a row whose
label is not `With skin tone variations`. -/
theorem stepCountRow_stv_of_ne (s : StatsP) (row : CountRow)
    (h : trimStr (getCellText row 0) ≠ "With skin tone variations") :
    (stepCountRow s row).skin_tone_variations = s.skin_tone_variations := by
  by_cases h1 : trimStr (getCellText row 0) = "Component"
  · simp [stepCountRow, h1]
  · by_cases h2 : trimStr (getCellText row 0) = "Total"
    · simp [stepCountRow, h1, h2]
    · cases hc : parseIntDec (trimStr (getCellText row 1)) with
      | none => simp [stepCountRow, h1, h2, h, hc]
      | some n =>
        by_cases h4 : trimStr (getCellText row 0) = "Group" <;>
          simp [stepCountRow, h1, h2, h, hc, h4]


/-- Folding rows none of which is labeled `Total` keeps
`total_with_variations` at `none`. -/
theorem foldl_total_none :
    ∀ (rows : List CountRow) (s : StatsP),
      (∀ row ∈ rows, trimStr (getCellText row 0) ≠ "Total") →
      s.total_with_variations = none →
      (rows.foldl stepCountRow s).total_with_variations = none
  | [], s, _, hs => hs
  | row :: rest, s, h, hs => by
    simp only [List.foldl_cons]
    exact foldl_total_none rest (stepCountRow s row)
      (fun r hr => h r (List.mem_cons_of_mem _ hr))
      ((stepCountRow_total_of_ne s row (h row (List.mem_cons_self _ _))).trans hs)

/-- Folding rows none of which carries the variation label keeps
`skin_tone_variations` at `none`. -/
theorem foldl_stv_none :
    ∀ (rows : List CountRow) (s : StatsP),
      (∀ row ∈ rows, trimStr (getCellText row 0) ≠ "With skin tone variations") →
      s.skin_tone_variations = none →
      (rows.foldl stepCountRow s).skin_tone_variations = none
  | [], s, _, hs => hs
  | row :: rest, s, h, hs => by
    simp only [List.foldl_cons]
    exact foldl_stv_none rest (stepCountRow s row)
      (fun r hr => h r (List.mem_cons_of_mem _ hr))
      ((stepCountRow_stv_of_ne s row (h row (List.mem_cons_self _ _))).trans hs)

/-- The mock counts rows of the repository's self-test. -/
def mockCountRows : List CountRow :=
  [⟨["Group", "Count"]⟩,
   ⟨["Smileys & Emotion", "100"]⟩,
   ⟨["People & Body", "200"]⟩,
   ⟨["Component", "10"]⟩,
   ⟨["Total", "310"]⟩,
   ⟨["With skin tone variations", "25"]⟩]

/-- **C2.** The cheerio `parseEmojiCounts` skips the first row as a
header, records each non-special label whose count parses (and is not the
literal `Group`) as a per-category count, returns
`total_without_skin_tone_variations = total − skin_tone_variations −
component`, and on the `Component=10, Total=310, With skin tone
variations=25` input yields `275` with the per-category counts
preserved. -/
theorem C2_counts_reconciliation :
    (∀ (r1 r2 : CountRow) (rest : List CountRow),
        parseEmojiCounts (r1 :: rest) = parseEmojiCounts (r2 :: rest))
    ∧ (∀ (s : StatsP) (row : CountRow) (n : Int),
        trimStr (getCellText row 0) ≠ "Component" →
        trimStr (getCellText row 0) ≠ "Total" →
        trimStr (getCellText row 0) ≠ "With skin tone variations" →
        trimStr (getCellText row 0) ≠ "Group" →
        parseIntDec (trimStr (getCellText row 1)) = some n →
        stepCountRow s row
          = { s with groups := insertEntry s.groups (trimStr (getCellText row 0)) n })
    ∧ (∀ (rows : List CountRow) (t v c : Int),
        ((rows.drop 1).foldl stepCountRow initStatsP).total_with_variations = some t →
        ((rows.drop 1).foldl stepCountRow initStatsP).skin_tone_variations = some v →
        ((rows.drop 1).foldl stepCountRow initStatsP).component = some c →
        (parseEmojiCounts rows).total_without_skin_tone_variations = some (t - v - c))
    ∧ parseEmojiCounts mockCountRows
        = ⟨some 275, some 10, 0,
           [("Smileys & Emotion", 100), ("People & Body", 200)], some 310, some 25⟩ := by
  refine ⟨fun r1 r2 rest => rfl, ?_, ?_, by decide⟩
  · intro s row n h1 h2 h3 h4 h5
    simp only [stepCountRow, h5, if_neg h1, if_neg h2, if_neg h3, if_neg h4]
  · intro rows t v c ht hv hc
    simp only [parseEmojiCounts, ht, hv, hc, nanSub]

theorem C2_counts_reconciliation_witness :
    stepCountRow initStatsP ⟨["Flags", "7"]⟩
        = { initStatsP with groups := insertEntry initStatsP.groups "Flags" 7 }
    ∧ (parseEmojiCounts mockCountRows).total_without_skin_tone_variations
        = some (310 - 25 - 10) :=
  ⟨C2_counts_reconciliation.2.1 initStatsP ⟨["Flags", "7"]⟩ 7
      (by decide) (by decide) (by decide) (by decide) (by decide),
   C2_counts_reconciliation.2.2.1 mockCountRows 310 25 10 (by decide) (by decide) (by decide)⟩

/-- Counts rows whose reconciled total is negative. -/
def negCountRows : List CountRow :=
  [⟨["Group", "Count"]⟩, ⟨["Total", "10"]⟩,
   ⟨["With skin tone variations", "20"]⟩, ⟨["Component", "5"]⟩]

/-- Counts rows whose reconciled total is zero. -/
def zeroCountRows : List CountRow :=
  [⟨["Group", "Count"]⟩, ⟨["Total", "0"]⟩,
   ⟨["With skin tone variations", "0"]⟩, ⟨["Component", "0"]⟩]

/-- **C3 counterexample.** The cheerio `parseEmojiCounts` is a total
function that never raises: on an input whose reconciled total is
negative it returns the negative number (no `DataIntegrityError`), and it
can silently return zero. -/
theorem C3_counterexample :
    (parseEmojiCounts negCountRows).total_without_skin_tone_variations = some (-15)
    ∧ (parseEmojiCounts zeroCountRows).total_without_skin_tone_variations = some 0 := by
  exact ⟨by decide, by decide⟩

/-- **C3 amended.** When the counts input has no `Total` row (or no
`With skin tone variations` row), the cheerio `parseEmojiCounts` does not
fail: it returns a statistics object whose
`total_without_skin_tone_variations` is `NaN` (embedded `none`, a
non-numeric result); when the computed value is negative it returns that
negative number, and it can return zero. -/
theorem C3_no_failure_nan_or_negative :
    (∀ rows : List CountRow,
        (∀ row ∈ rows.drop 1, trimStr (getCellText row 0) ≠ "Total") →
        (parseEmojiCounts rows).total_without_skin_tone_variations = none)
    ∧ (∀ rows : List CountRow,
        (∀ row ∈ rows.drop 1, trimStr (getCellText row 0) ≠ "With skin tone variations") →
        (parseEmojiCounts rows).total_without_skin_tone_variations = none)
    ∧ (parseEmojiCounts negCountRows).total_without_skin_tone_variations = some (-15)
    ∧ (parseEmojiCounts zeroCountRows).total_without_skin_tone_variations = some 0 := by
  refine ⟨?_, ?_, by decide, by decide⟩
  · intro rows h
    have ht : ((rows.drop 1).foldl stepCountRow initStatsP).total_with_variations = none :=
      foldl_total_none (rows.drop 1) initStatsP h rfl
    simp only [parseEmojiCounts, ht, nanSub]
  · intro rows h
    have hv : ((rows.drop 1).foldl stepCountRow initStatsP).skin_tone_variations = none :=
      foldl_stv_none (rows.drop 1) initStatsP h rfl
    have h2 : ∀ x y : Option Int, nanSub (nanSub x none) y = none := by
      intro x y; cases x <;> cases y <;> rfl
    simp only [parseEmojiCounts, hv, h2]

theorem C3_no_failure_nan_or_negative_witness :
    (parseEmojiCounts [⟨["Group", "Count"]⟩, ⟨["Component", "10"]⟩]).total_without_skin_tone_variations
      = none :=
  C3_no_failure_nan_or_negative.1 [⟨["Group", "Count"]⟩, ⟨["Component", "10"]⟩] (by decide)

/-- **C10 counterexample.** On an input document with no table rows,
`parseEmojiCounts` of `generate-emoji-counts.js` throws
(`allRows[0].childNodes` on `undefined`) instead of returning a
statistics object, so it does not return `dual_skin_tone_support = 13`
for every input. -/
theorem C10_counterexample :
    parseEmojiCountsS [] = .error "TypeError: cannot read childNodes of undefined" := by
  rfl

/-- **C10 amended.** Whenever `parseEmojiCounts` of
`generate-emoji-counts.js` returns a statistics object (it throws on an
empty row list, on a row with no cells, or when the header row is longer
than the last row), that object has `dual_skin_tone_support = 13`: the
value is hardcoded by the final assignment, independent of the parsed
rows. -/
theorem C10_dual_support_hardcoded :
    ∀ (rows : List CountRow) (s : StatsS),
      parseEmojiCountsS rows = .ok s → s.dual_skin_tone_support = 13 := by
  intro rows s h
  unfold parseEmojiCountsS at h
  cases hc : countsCore rows with
  | error e => rw [hc] at h; exact absurd h (by simp)
  | ok s1 =>
    rw [hc] at h
    have : { s1 with dual_skin_tone_support := 13 } = s := by
      simpa using h
    rw [← this]

theorem C10_dual_support_hardcoded_witness :
    StatsS.dual_skin_tone_support ⟨none, some 0, 13, []⟩ = 13 :=
  C10_dual_support_hardcoded [⟨["A"]⟩] ⟨none, some 0, 13, []⟩ (by rfl)

/-- `String.fromCodePoint` on a list with a failed parse (`NaN`) fails. -/
theorem fromCodePoints_has_none :
    ∀ l : List (Option Int), none ∈ l → fromCodePoints l = none := by
  intro l h
  induction l with
  | nil => cases h
  | cons a rest ih =>
    cases a with
    | none => rfl
    | some v =>
      have hr : none ∈ rest := by
        rcases List.mem_cons.mp h with h1 | h1
        · simp at h1
        · exact h1
      simp only [fromCodePoints, ih hr]
      split <;> rfl

/-- A full row with a token that has no hex prefix makes `processRow`
raise, whatever the accumulated mapping is. -/
theorem processRow_error_of_bad_token (m : List (Key × EmojiRecord))
    (c n g tok : String) (htok : tok ∈ splitSp (trimStr c))
    (hbad : parseIntHex tok = none) :
    processRow m ⟨some c, some n, some g⟩ = .error "RangeError: invalid code point" := by
  have hn : none ∈ (splitSp (trimStr c)).map parseIntHex := by
    rw [← hbad]
    exact List.mem_map_of_mem parseIntHex htok
  simp only [processRow, fromCodePoints_has_none _ hn]

/-- If some row of the input makes `processRow` raise regardless of the
accumulated mapping, the whole row loop raises. -/
theorem parseEmojiDataGo_error_of_mem :
    ∀ (rows : List SourceRow) (m : List (Key × EmojiRecord)) (row : SourceRow),
      row ∈ rows →
      (∀ m0, processRow m0 row = .error "RangeError: invalid code point") →
      ∃ e, parseEmojiDataGo rows m = .error e := by
  intro rows
  induction rows with
  | nil => intro m row h; cases h
  | cons r rest ih =>
    intro m row h hp
    rcases List.mem_cons.mp h with h1 | h1
    · subst h1
      exact ⟨"RangeError: invalid code point", by simp [parseEmojiDataGo, hp m]⟩
    · cases hr : processRow m r with
      | error e => exact ⟨e, by simp [parseEmojiDataGo, hr]⟩
      | ok m1 =>
        obtain ⟨e, he⟩ := ih m1 row h1 hp
        exact ⟨e, by simp [parseEmojiDataGo, hr, he]⟩

/-- **C6.** When a row has all three required cells but its code-point
text contains a token with no parseable hex value, `parseEmojiData`
raises a fatal error that propagates out of the whole parse: the row is
not skipped and no mapping is returned at all. -/
theorem C6_bad_hex_fatal :
    ∀ (rows : List SourceRow) (c n g tok : String),
      (⟨some c, some n, some g⟩ : SourceRow) ∈ rows →
      tok ∈ splitSp (trimStr c) →
      parseIntHex tok = none →
      ∃ e, parseEmojiData rows = .error e := by
  intro rows c n g tok hmem htok hbad
  exact parseEmojiDataGo_error_of_mem rows [] _ hmem
    (fun m0 => processRow_error_of_bad_token m0 c n g tok htok hbad)

theorem C6_bad_hex_fatal_witness :
    ∃ e, parseEmojiData
        [⟨some "1F600", some "grinning face", some "Smileys & Emotion"⟩,
         ⟨some "ZZZ", some "x", some "g"⟩] = .error e :=
  C6_bad_hex_fatal _ "ZZZ" "x" "g" "ZZZ" (by decide) (by decide) (by decide)

/-- Entries of an object after an assignment: the assigned pair, or an
old entry with a different key. -/
theorem mem_insertEntry {κ β : Type} [DecidableEq κ] {m : List (κ × β)} {k : κ} {v : β}
    {p : κ × β} (h : p ∈ insertEntry m k v) : p = (k, v) ∨ (p ∈ m ∧ p.1 ≠ k) := by
  unfold insertEntry at h
  by_cases hany : m.any (fun q => q.1 == k) = true
  · rw [if_pos hany] at h
    obtain ⟨q, hq, hpq⟩ := List.mem_map.mp h
    by_cases hk : q.1 = k
    · left
      rw [hk] at hpq
      simp at hpq
      exact hpq.symm
    · right
      simp only [show (q.1 == k) = false from by simpa using hk, if_false] at hpq
      rw [← hpq]
      exact ⟨hq, hk⟩
  · rw [if_neg hany] at h
    rcases List.mem_append.mp h with h1 | h1
    · right
      refine ⟨h1, fun hc => hany ?_⟩
      exact List.any_eq_true.mpr ⟨p, h1, by simp [hc]⟩
    · left
      simpa using h1

/-- The assigned pair is an entry of the object after the assignment. -/
theorem self_mem_insertEntry {κ β : Type} [DecidableEq κ] (m : List (κ × β)) (k : κ) (v : β) :
    (k, v) ∈ insertEntry m k v := by
  unfold insertEntry
  by_cases hany : m.any (fun q => q.1 == k) = true
  · rw [if_pos hany]
    obtain ⟨q, hq, hqk⟩ := List.any_eq_true.mp hany
    refine List.mem_map.mpr ⟨q, hq, ?_⟩
    simp [show q.1 = k from by simpa using hqk]
  · rw [if_neg hany]
    simp

/-- Assignment never removes a key. -/
theorem key_mem_insertEntry {κ β : Type} [DecidableEq κ] {m : List (κ × β)} {k0 : κ}
    (k : κ) (v : β) (h : ∃ w, (k0, w) ∈ m) : ∃ w, (k0, w) ∈ insertEntry m k v := by
  obtain ⟨w, hw⟩ := h
  unfold insertEntry
  by_cases hany : m.any (fun q => q.1 == k) = true
  · rw [if_pos hany]
    by_cases hk : k0 = k
    · subst hk
      exact ⟨v, List.mem_map.mpr ⟨(k0, w), hw, by simp⟩⟩
    · exact ⟨w, List.mem_map.mpr ⟨(k0, w), hw, by simp [show ((k0, w).1 == k) = false from by simpa using hk]⟩⟩
  · rw [if_neg hany]
    exact ⟨w, List.mem_append_left _ hw⟩

/-- Entries after folding a list of assignments come from the original
object or from the assigned list. -/
theorem mem_foldl_insert {κ β : Type} [DecidableEq κ] :
    ∀ (es : List (κ × β)) (m : List (κ × β)) (p : κ × β),
      p ∈ es.foldl (fun acc e => insertEntry acc e.1 e.2) m → p ∈ m ∨ p ∈ es := by
  intro es
  induction es with
  | nil => intro m p h; exact Or.inl h
  | cons e rest ih =>
    intro m p h
    simp only [List.foldl_cons] at h
    rcases ih _ p h with h1 | h1
    · rcases mem_insertEntry h1 with h2 | h2
      · right; simp [h2]
      · exact Or.inl h2.1
    · exact Or.inr (List.mem_cons_of_mem _ h1)

/-- Folding assignments never removes a key. -/
theorem key_mem_foldl_insert {κ β : Type} [DecidableEq κ] :
    ∀ (es : List (κ × β)) (m : List (κ × β)) (k0 : κ),
      (∃ w, (k0, w) ∈ m) →
      ∃ w, (k0, w) ∈ es.foldl (fun acc e => insertEntry acc e.1 e.2) m := by
  intro es
  induction es with
  | nil => intro m k0 h; exact h
  | cons e rest ih =>
    intro m k0 h
    simp only [List.foldl_cons]
    exact ih _ k0 (key_mem_insertEntry e.1 e.2 h)

/-- Every key assigned by the fold is present afterwards. -/
theorem key_of_es_mem_foldl_insert {κ β : Type} [DecidableEq κ] :
    ∀ (es : List (κ × β)) (m : List (κ × β)) (e : κ × β),
      e ∈ es → ∃ w, (e.1, w) ∈ es.foldl (fun acc e => insertEntry acc e.1 e.2) m := by
  intro es
  induction es with
  | nil => intro m e h; cases h
  | cons e0 rest ih =>
    intro m e h
    simp only [List.foldl_cons]
    rcases List.mem_cons.mp h with h1 | h1
    · subst h1
      exact key_mem_foldl_insert rest _ e.1 ⟨e.2, self_mem_insertEntry m e.1 e.2⟩
    · exact ih _ e h1

/-- The base assignment is among a row's assignments. -/
theorem rowEntriesCore_base_mem (emoji : Key) (name group : String) :
    (emoji, baseRecord emoji name group (hasSkinToneSupport name) (hasDualSkinToneSupport name))
      ∈ rowEntriesCore emoji name group := by
  simp [rowEntriesCore]

/-- Every back-reference among a row's assignments points at the row's
own base key. -/
theorem rowEntriesCore_base_ref (emoji : Key) (name group : String) :
    ∀ p ∈ rowEntriesCore emoji name group, ∀ b : Key, p.2.base_emoji = some b → b = emoji := by
  intro p hp b hb
  simp only [rowEntriesCore, List.cons_append, List.nil_append] at hp
  rcases List.mem_cons.mp hp with h1 | h1
  · subst h1
    simp [baseRecord] at hb
  · by_cases hs : hasSkinToneSupport name = true
    · rw [if_pos hs] at h1
      rcases List.mem_append.mp h1 with h2 | h2
      · obtain ⟨mod, _, hpe⟩ := List.mem_map.mp h2
        rw [← hpe] at hb
        simp [singleVariantRecord] at hb
        exact hb.symm
      · by_cases hd : hasDualSkinToneSupport name = true
        · rw [if_pos hd] at h2
          obtain ⟨m1, _, h3⟩ := List.mem_flatMap.mp h2
          obtain ⟨m2, _, hpe⟩ := List.mem_map.mp h3
          rw [← hpe] at hb
          simp [dualVariantRecord] at hb
          exact hb.symm
        · rw [if_neg hd] at h2
          cases h2
    · rw [if_neg hs] at h1
      cases h1

/-- Every variant assignment of a row has a key ending in a skin tone
modifier code point. -/
theorem rowEntriesCore_variant_shape (emoji : Key) (name group : String) :
    ∀ p ∈ rowEntriesCore emoji name group, p.2.is_variant = true →
      ∃ mod ∈ SKIN_TONE_MODIFIERS, p.1.getLast? = some mod := by
  intro p hp hv
  simp only [rowEntriesCore, List.cons_append, List.nil_append] at hp
  rcases List.mem_cons.mp hp with h1 | h1
  · rw [h1] at hv
    simp [baseRecord] at hv
  · by_cases hs : hasSkinToneSupport name = true
    · rw [if_pos hs] at h1
      rcases List.mem_append.mp h1 with h2 | h2
      · obtain ⟨mod, hmod, hpe⟩ := List.mem_map.mp h2
        refine ⟨mod, hmod, ?_⟩
        rw [← hpe]
        exact List.getLast?_concat emoji
      · by_cases hd : hasDualSkinToneSupport name = true
        · rw [if_pos hd] at h2
          obtain ⟨m1, _, h3⟩ := List.mem_flatMap.mp h2
          obtain ⟨m2, hm2, hpe⟩ := List.mem_map.mp h3
          refine ⟨m2, hm2, ?_⟩
          rw [← hpe]
          show (emoji ++ [m1, m2]).getLast? = some m2
          rw [show emoji ++ [m1, m2] = (emoji ++ [m1]) ++ [m2] from by simp]
          exact List.getLast?_concat _
        · rw [if_neg hd] at h2
          cases h2
    · rw [if_neg hs] at h1
      cases h1

/-- Invariant of the emoji mapping: every back-reference resolves to a
present key, and every variant entry's key ends in a modifier. -/
def GoodMap (m : List (Key × EmojiRecord)) : Prop :=
  (∀ p ∈ m, ∀ b : Key, p.2.base_emoji = some b → ∃ w, (b, w) ∈ m)
  ∧ (∀ p ∈ m, p.2.is_variant = true → ∃ mod ∈ SKIN_TONE_MODIFIERS, p.1.getLast? = some mod)

/-- `processRow` preserves the mapping invariant. -/
theorem processRow_good (m : List (Key × EmojiRecord)) (row : SourceRow)
    (m' : List (Key × EmojiRecord)) (hg : GoodMap m)
    (h : processRow m row = .ok m') : GoodMap m' := by
  rcases row with ⟨c, n, g⟩
  cases c with
  | none => simp only [processRow] at h; cases h; exact hg
  | some ct =>
    cases n with
    | none => simp only [processRow] at h; cases h; exact hg
    | some nt =>
      cases g with
      | none => simp only [processRow] at h; cases h; exact hg
      | some gt =>
        simp only [processRow] at h
        cases hfc : fromCodePoints ((splitSp (trimStr ct)).map parseIntHex) with
        | none => rw [hfc] at h; cases h
        | some emoji =>
          rw [hfc] at h
          cases h
          constructor
          · intro p hp b hb
            rcases mem_foldl_insert _ _ p hp with h1 | h1
            · exact key_mem_foldl_insert _ _ b (hg.1 p h1 b hb)
            · have hb2 := rowEntriesCore_base_ref emoji (trimStr nt) (trimStr gt) p h1 b hb
              rw [hb2]
              exact key_of_es_mem_foldl_insert _ m _
                (rowEntriesCore_base_mem emoji (trimStr nt) (trimStr gt))
          · intro p hp hv
            rcases mem_foldl_insert _ _ p hp with h1 | h1
            · exact hg.2 p h1 hv
            · exact rowEntriesCore_variant_shape emoji (trimStr nt) (trimStr gt) p h1 hv

/-- The row loop preserves the mapping invariant. -/
theorem parseEmojiDataGo_good :
    ∀ (rows : List SourceRow) (m m' : List (Key × EmojiRecord)),
      GoodMap m → parseEmojiDataGo rows m = .ok m' → GoodMap m' := by
  intro rows
  induction rows with
  | nil => intro m m' hg h; cases h; exact hg
  | cons r rest ih =>
    intro m m' hg h
    simp only [parseEmojiDataGo] at h
    cases hr : processRow m r with
    | error e => rw [hr] at h; cases h
    | ok m1 =>
      rw [hr] at h
      exact ih m1 m' (processRow_good m r m1 hg hr) h

/-- Rows producing a base key that a later row's variant key overwrites. -/
def overlapRows : List SourceRow :=
  [⟨some "1F91D 1F3FB", some "hand a", some "g"⟩,
   ⟨some "1F91D", some "hand b", some "g"⟩]

/-- **C4 counterexample.** With key collisions `parseEmojiData` can leave
a variant record whose `base_emoji` resolves to another variant record:
row 2's single-tone variant key `1F91D 1F3FB` overwrites row 1's base
record, while row 1's variant `1F91D 1F3FB 1F3FB` still points at it. -/
theorem C4_counterexample :
    (parseEmojiData overlapRows).map (fun m =>
        ((lookupKey m [0x1F91D, 0x1F3FB, 0x1F3FB]).map (fun r => (r.is_variant, r.base_emoji)),
         (lookupKey m [0x1F91D, 0x1F3FB]).map (fun r => r.is_variant)))
      = .ok (some (true, some [0x1F91D, 0x1F3FB]), some true) := by
  rfl

/-- **C4 amended.** In any mapping returned by `parseEmojiData`, every
record's `base_emoji` key is present in the mapping; and whenever that
base key does not itself end in a skin tone modifier code point (true of
every genuine base row), the record stored at it is a non-variant record.
The unconditional claim fails when a later row's variant key collides
with an earlier base key (see the counterexample). -/
theorem C4_base_resolution :
    ∀ (rows : List SourceRow) (m : List (Key × EmojiRecord)),
      parseEmojiData rows = .ok m →
      ∀ (k : Key) (r : EmojiRecord) (b : Key), (k, r) ∈ m → r.base_emoji = some b →
        (∃ w, (b, w) ∈ m)
        ∧ ((∀ mod ∈ SKIN_TONE_MODIFIERS, b.getLast? ≠ some mod) →
            ∀ w : EmojiRecord, (b, w) ∈ m → w.is_variant = false) := by
  intro rows m hm k r b hkr hb
  have hg : GoodMap m :=
    parseEmojiDataGo_good rows [] m ⟨by simp, by simp⟩ hm
  refine ⟨hg.1 (k, r) hkr b hb, ?_⟩
  intro hnot w hw
  cases hv : w.is_variant with
  | false => rfl
  | true =>
    obtain ⟨mod, hmod, hlast⟩ := hg.2 (b, w) hw hv
    exact absurd hlast (hnot mod hmod)

/-- A single handshake row, used to witness the amended C4. -/
def handshakeRows : List SourceRow :=
  [⟨some "1F91D", some "handshake", some "People & Body"⟩]

/-- The mapping produced for `handshakeRows`. -/
def handshakeMap : List (Key × EmojiRecord) :=
  match parseEmojiData handshakeRows with
  | .ok m => m
  | .error _ => []

theorem C4_base_resolution_witness :
    ∃ w, (([0x1F91D] : Key), w) ∈ handshakeMap ∧ w.is_variant = false := by
  have h := C4_base_resolution handshakeRows handshakeMap (by rfl)
    [0x1F91D, 0x1F3FB]
    (singleVariantRecord [0x1F91D] "handshake" "People & Body" 0x1F3FB)
    [0x1F91D] (by decide) (by rfl)
  obtain ⟨w, hw⟩ := h.1
  exact ⟨w, hw, h.2 (by decide) w hw⟩

/-- The group names after one `generateGroupData` iteration: unchanged
when the record's group exists, otherwise extended by it. -/
theorem groupStep_names (gs : List GroupData) (e : Key × EmojiRecord) :
    (groupStep gs e).map (fun x => x.name)
      = if gs.any (fun x => x.name == e.2.group) then gs.map (fun x => x.name)
        else gs.map (fun x => x.name) ++ [e.2.group] := by
  have hpush : ∀ x : GroupData,
      (if x.name == e.2.group then GroupData.mk x.name (x.emojis ++ [mkMember e.1 e.2]) else x).name
        = x.name := by
    intro x
    by_cases hx : (x.name == e.2.group) = true <;> simp [hx]
  simp only [groupStep]
  by_cases hc : gs.any (fun x => x.name == e.2.group) = true
  · rw [if_pos hc, if_pos hc]
    by_cases hv : e.2.is_variant = true
    · rw [if_pos hv]
    · rw [if_neg hv]
      rw [List.map_map]
      exact List.map_congr_left (fun x _ => hpush x)
  · rw [if_neg hc, if_neg hc]
    by_cases hv : e.2.is_variant = true
    · rw [if_pos hv]
      simp
    · rw [if_neg hv]
      rw [List.map_map]
      have h1 : (gs ++ [GroupData.mk e.2.group []]).map
            (fun x => (if x.name == e.2.group then GroupData.mk x.name (x.emojis ++ [mkMember e.1 e.2]) else x).name)
          = (gs ++ [GroupData.mk e.2.group []]).map (fun x => x.name) := by
        exact List.map_congr_left (fun x _ => hpush x)
      calc (gs ++ [GroupData.mk e.2.group []]).map
            ((fun x => x.name) ∘ fun x => if x.name == e.2.group then GroupData.mk x.name (x.emojis ++ [mkMember e.1 e.2]) else x)
          = (gs ++ [GroupData.mk e.2.group []]).map (fun x => x.name) := h1
        _ = gs.map (fun x => x.name) ++ [e.2.group] := by simp

/-- `firstOccurAux` only depends on membership of the seen set. -/
theorem firstOccurAux_congr :
    ∀ (l : List String) (s1 s2 : List String), (∀ x, x ∈ s1 ↔ x ∈ s2) →
      firstOccurAux s1 l = firstOccurAux s2 l := by
  intro l
  induction l with
  | nil => intro s1 s2 h; rfl
  | cons x xs ih =>
    intro s1 s2 h
    simp only [firstOccurAux]
    by_cases hx : x ∈ s1
    · rw [if_pos hx, if_pos ((h x).mp hx)]
      exact ih s1 s2 h
    · rw [if_neg hx, if_neg (fun hc => hx ((h x).mpr hc))]
      have := ih (x :: s1) (x :: s2) (fun y => by simp [h y])
      rw [this]

/-- The group names produced by folding `groupStep`: the seed's names
followed by the first occurrences of the records' group names. -/
theorem foldl_groupStep_names :
    ∀ (m : List (Key × EmojiRecord)) (gs : List GroupData),
      (m.foldl groupStep gs).map (fun x => x.name)
        = gs.map (fun x => x.name)
          ++ firstOccurAux (gs.map (fun x => x.name)) (m.map (fun p => p.2.group)) := by
  intro m
  induction m with
  | nil => intro gs; simp [firstOccurAux]
  | cons e rest ih =>
    intro gs
    simp only [List.foldl_cons, List.map_cons, firstOccurAux]
    by_cases hc : gs.any (fun x => x.name == e.2.group) = true
    · have hmem : e.2.group ∈ gs.map (fun x => x.name) := by
        obtain ⟨x, hx, hxe⟩ := List.any_eq_true.mp hc
        exact List.mem_map.mpr ⟨x, hx, by simpa using hxe⟩
      rw [if_pos hmem, ih (groupStep gs e), groupStep_names, if_pos hc]
    · have hmem : e.2.group ∉ gs.map (fun x => x.name) := by
        intro hmem
        obtain ⟨x, hx, hxe⟩ := List.mem_map.mp hmem
        exact hc (List.any_eq_true.mpr ⟨x, hx, by simp [hxe]⟩)
      rw [if_neg hmem, ih (groupStep gs e), groupStep_names, if_neg hc]
      have hseen : firstOccurAux (gs.map (fun x => x.name) ++ [e.2.group]) (rest.map (fun p => p.2.group))
          = firstOccurAux (e.2.group :: gs.map (fun x => x.name)) (rest.map (fun p => p.2.group)) :=
        firstOccurAux_congr _ _ _ (fun y => by simp [or_comm])
      rw [hseen, List.append_assoc]
      rfl

/-- Where a group of `groupStep gs e` comes from: an old group (with its
members possibly extended by the record's member), or the freshly created
group of the record's own group name. -/
theorem mem_groupStep (gs : List GroupData) (e : Key × EmojiRecord) (g0 : GroupData)
    (hg : g0 ∈ groupStep gs e) :
    (∃ g1 ∈ gs, g0.name = g1.name ∧ ∀ mb ∈ g0.emojis,
        mb ∈ g1.emojis ∨ (e.2.is_variant = false ∧ e.2.group = g0.name ∧ mb = mkMember e.1 e.2))
    ∨ (g0.name = e.2.group ∧ ∀ mb ∈ g0.emojis,
        e.2.is_variant = false ∧ e.2.group = g0.name ∧ mb = mkMember e.1 e.2) := by
  simp only [groupStep] at hg
  by_cases hc : gs.any (fun x => x.name == e.2.group) = true
  · rw [if_pos hc] at hg
    by_cases hv : e.2.is_variant = true
    · rw [if_pos hv] at hg
      exact Or.inl ⟨g0, hg, rfl, fun mb hm => Or.inl hm⟩
    · rw [if_neg hv] at hg
      obtain ⟨g1, hg1, hpe⟩ := List.mem_map.mp hg
      by_cases hk : (g1.name == e.2.group) = true
      · rw [if_pos hk] at hpe
        refine Or.inl ⟨g1, hg1, by rw [← hpe], fun mb hm => ?_⟩
        rw [← hpe] at hm
        rcases List.mem_append.mp hm with h2 | h2
        · exact Or.inl h2
        · refine Or.inr ⟨by simpa using hv, ?_, by simpa using h2⟩
          rw [← hpe]
          exact (by simpa using hk : g1.name = e.2.group).symm
      · rw [if_neg hk] at hpe
        rw [← hpe]
        exact Or.inl ⟨g1, hg1, rfl, fun mb hm => Or.inl hm⟩
  · rw [if_neg hc] at hg
    by_cases hv : e.2.is_variant = true
    · rw [if_pos hv] at hg
      rcases List.mem_append.mp hg with h1 | h1
      · exact Or.inl ⟨g0, h1, rfl, fun mb hm => Or.inl hm⟩
      · have hg0 : g0 = GroupData.mk e.2.group [] := by simpa using h1
        rw [hg0]
        exact Or.inr ⟨rfl, fun mb hm => by simp at hm⟩
    · rw [if_neg hv] at hg
      obtain ⟨g1, hg1, hpe⟩ := List.mem_map.mp hg
      rcases List.mem_append.mp hg1 with h1 | h1
      · by_cases hk : (g1.name == e.2.group) = true
        · rw [if_pos hk] at hpe
          refine Or.inl ⟨g1, h1, by rw [← hpe], fun mb hm => ?_⟩
          rw [← hpe] at hm
          rcases List.mem_append.mp hm with h2 | h2
          · exact Or.inl h2
          · refine Or.inr ⟨by simpa using hv, ?_, by simpa using h2⟩
            rw [← hpe]
            exact (by simpa using hk : g1.name = e.2.group).symm
        · rw [if_neg hk] at hpe
          rw [← hpe]
          exact Or.inl ⟨g1, h1, rfl, fun mb hm => Or.inl hm⟩
      · have hg1e : g1 = GroupData.mk e.2.group [] := by simpa using h1
        rw [hg1e] at hpe
        simp only [show ((GroupData.mk e.2.group []).name == e.2.group) = true from by simp] at hpe
        rw [← hpe]
        refine Or.inr ⟨rfl, fun mb hm => ?_⟩
        have : mb = mkMember e.1 e.2 := by simpa using hm
        exact ⟨by simpa using hv, rfl, this⟩

/-- Every member of every group of the fold comes from a seed group of
the same name or from a non-variant record of the folded list. -/
theorem mem_groupFold_emojis :
    ∀ (m : List (Key × EmojiRecord)) (gs : List GroupData) (g : GroupData) (mb : GroupMember),
      g ∈ m.foldl groupStep gs → mb ∈ g.emojis →
        (∃ g0 ∈ gs, g0.name = g.name ∧ mb ∈ g0.emojis)
        ∨ (∃ p ∈ m, p.2.is_variant = false ∧ p.2.group = g.name ∧ mb = mkMember p.1 p.2) := by
  intro m
  induction m with
  | nil => intro gs g mb hg hm; exact Or.inl ⟨g, hg, rfl, hm⟩
  | cons e rest ih =>
    intro gs g mb hg hm
    rcases ih (groupStep gs e) g mb hg hm with ⟨g0, hg0, hname, hmem⟩ | ⟨p, hp, h1, h2, h3⟩
    · rcases mem_groupStep gs e g0 hg0 with ⟨g1, hg1, hname2, hcover⟩ | ⟨hname0, hcover⟩
      · rcases hcover mb hmem with h4 | ⟨h4, h5, h6⟩
        · exact Or.inl ⟨g1, hg1, hname2.symm.trans hname, h4⟩
        · exact Or.inr ⟨e, List.mem_cons_self _ _, h4, h5.trans hname, h6⟩
      · obtain ⟨h4, h5, h6⟩ := hcover mb hmem
        exact Or.inr ⟨e, List.mem_cons_self _ _, h4, h5.trans hname, h6⟩
    · exact Or.inr ⟨p, List.mem_cons_of_mem _ hp, h1, h2, h3⟩

/-- `groupStep` keeps group names duplicate-free. -/
theorem groupStep_names_nodup (gs : List GroupData) (e : Key × EmojiRecord)
    (h : (gs.map (fun x => x.name)).Nodup) :
    ((groupStep gs e).map (fun x => x.name)).Nodup := by
  rw [groupStep_names]
  by_cases hc : gs.any (fun x => x.name == e.2.group) = true
  · rw [if_pos hc]; exact h
  · rw [if_neg hc]
    rw [List.nodup_append]
    refine ⟨h, List.nodup_singleton _, ?_⟩
    intro a ha hb
    have hae : a = e.2.group := by simpa using hb
    obtain ⟨x, hx, hxe⟩ := List.mem_map.mp ha
    exact hc (List.any_eq_true.mpr ⟨x, hx, by simp [hxe, hae]⟩)

/-- The fold keeps group names duplicate-free. -/
theorem foldl_groupStep_names_nodup :
    ∀ (m : List (Key × EmojiRecord)) (gs : List GroupData),
      (gs.map (fun x => x.name)).Nodup →
      ((m.foldl groupStep gs).map (fun x => x.name)).Nodup := by
  intro m
  induction m with
  | nil => intro gs h; exact h
  | cons e rest ih =>
    intro gs h
    exact ih (groupStep gs e) (groupStep_names_nodup gs e h)

/-- A member present in some group survives one `groupStep`. -/
theorem mem_emojis_mono_groupStep (gs : List GroupData) (e : Key × EmojiRecord)
    (g0 : GroupData) (mb : GroupMember) (hg : g0 ∈ gs) (hm : mb ∈ g0.emojis) :
    ∃ g1 ∈ groupStep gs e, g1.name = g0.name ∧ mb ∈ g1.emojis := by
  simp only [groupStep]
  by_cases hc : gs.any (fun x => x.name == e.2.group) = true
  · rw [if_pos hc]
    by_cases hv : e.2.is_variant = true
    · rw [if_pos hv]
      exact ⟨g0, hg, rfl, hm⟩
    · rw [if_neg hv]
      by_cases hk : (g0.name == e.2.group) = true
      · refine ⟨GroupData.mk g0.name (g0.emojis ++ [mkMember e.1 e.2]),
          List.mem_map.mpr ⟨g0, hg, by rw [if_pos hk]⟩, rfl, List.mem_append_left _ hm⟩
      · exact ⟨g0, List.mem_map.mpr ⟨g0, hg, by rw [if_neg hk]⟩, rfl, hm⟩
  · rw [if_neg hc]
    by_cases hv : e.2.is_variant = true
    · rw [if_pos hv]
      exact ⟨g0, List.mem_append_left _ hg, rfl, hm⟩
    · rw [if_neg hv]
      by_cases hk : (g0.name == e.2.group) = true
      · refine ⟨GroupData.mk g0.name (g0.emojis ++ [mkMember e.1 e.2]),
          List.mem_map.mpr ⟨g0, List.mem_append_left _ hg, by rw [if_pos hk]⟩, rfl,
          List.mem_append_left _ hm⟩
      · exact ⟨g0, List.mem_map.mpr ⟨g0, List.mem_append_left _ hg, by rw [if_neg hk]⟩, rfl, hm⟩

/-- A member present in some group survives the whole fold. -/
theorem mem_emojis_mono_fold :
    ∀ (m : List (Key × EmojiRecord)) (gs : List GroupData) (g0 : GroupData) (mb : GroupMember),
      g0 ∈ gs → mb ∈ g0.emojis →
      ∃ g1 ∈ m.foldl groupStep gs, g1.name = g0.name ∧ mb ∈ g1.emojis := by
  intro m
  induction m with
  | nil => intro gs g0 mb hg hm; exact ⟨g0, hg, rfl, hm⟩
  | cons e rest ih =>
    intro gs g0 mb hg hm
    obtain ⟨g1, hg1, hn1, hm1⟩ := mem_emojis_mono_groupStep gs e g0 mb hg hm
    obtain ⟨g2, hg2, hn2, hm2⟩ := ih (groupStep gs e) g1 mb hg1 hm1
    exact ⟨g2, hg2, hn2.trans hn1, hm2⟩

/-- Processing a non-variant record pushes its member into the group of
its group name. -/
theorem member_added (gs : List GroupData) (e : Key × EmojiRecord)
    (hv : e.2.is_variant = false) :
    ∃ g1 ∈ groupStep gs e, g1.name = e.2.group ∧ mkMember e.1 e.2 ∈ g1.emojis := by
  simp only [groupStep]
  rw [if_neg (by simp [hv])]
  by_cases hc : gs.any (fun x => x.name == e.2.group) = true
  · rw [if_pos hc]
    obtain ⟨x, hx, hxe⟩ := List.any_eq_true.mp hc
    refine ⟨GroupData.mk x.name (x.emojis ++ [mkMember e.1 e.2]),
      List.mem_map.mpr ⟨x, hx, by rw [if_pos hxe]⟩, by simpa using hxe, ?_⟩
    exact List.mem_append_right _ (List.mem_singleton_self _)
  · rw [if_neg hc]
    refine ⟨GroupData.mk e.2.group [mkMember e.1 e.2],
      List.mem_map.mpr ⟨GroupData.mk e.2.group [], List.mem_append_right _ (List.mem_singleton_self _), ?_⟩,
      rfl, List.mem_singleton_self _⟩
    rw [if_pos (by simp)]
    rfl

/-- Every non-variant record of the list ends up as a member of the group
of its group name. -/
theorem member_in_fold :
    ∀ (m : List (Key × EmojiRecord)) (gs : List GroupData) (p : Key × EmojiRecord),
      p ∈ m → p.2.is_variant = false →
      ∃ g1 ∈ m.foldl groupStep gs, g1.name = p.2.group ∧ mkMember p.1 p.2 ∈ g1.emojis := by
  intro m
  induction m with
  | nil => intro gs p h; cases h
  | cons e rest ih =>
    intro gs p h hv
    rcases List.mem_cons.mp h with h1 | h1
    · subst h1
      obtain ⟨g1, hg1, hn1, hm1⟩ := member_added gs p hv
      obtain ⟨g2, hg2, hn2, hm2⟩ := mem_emojis_mono_fold rest (groupStep gs p) g1 _ hg1 hm1
      exact ⟨g2, hg2, hn2.trans hn1, hm2⟩
    · exact ih (groupStep gs e) p h1 hv

/-- **C7.** In `generateGroupData`'s output every group member comes from
a non-variant record of the mapping with the matching group name (so no
variant appears in any member list); when the mapping's keys are
duplicate-free every non-variant record appears in exactly one group,
the one named by its category; and the group order is the
first-occurrence order of the category names in the mapping. -/
theorem C7_group_aggregation :
    ∀ m : List (Key × EmojiRecord),
      (∀ g ∈ generateGroupData m, ∀ mb ∈ g.emojis,
          ∃ p ∈ m, p.2.is_variant = false ∧ p.2.group = g.name ∧ mb = mkMember p.1 p.2)
      ∧ ((m.map Prod.fst).Nodup →
          ∀ p ∈ m, p.2.is_variant = false →
            ∃ g ∈ generateGroupData m, g.name = p.2.group ∧ mkMember p.1 p.2 ∈ g.emojis
              ∧ ∀ g2 ∈ generateGroupData m, mkMember p.1 p.2 ∈ g2.emojis → g2 = g)
      ∧ (generateGroupData m).map (fun g => g.name) = firstOccur (m.map (fun p => p.2.group)) := by
  intro m
  refine ⟨?_, ?_, ?_⟩
  · intro g hg mb hm
    rcases mem_groupFold_emojis m [] g mb hg hm with ⟨g0, hg0, _⟩ | h
    · cases hg0
    · exact h
  · intro hnd p hp hv
    obtain ⟨g, hg, hn, hm⟩ := member_in_fold m [] p hp hv
    refine ⟨g, hg, hn, hm, ?_⟩
    intro g2 hg2 hm2
    rcases mem_groupFold_emojis m [] g2 _ hg2 hm2 with ⟨g0, hg0, _⟩ | ⟨q, hq, hq1, hq2, hq3⟩
    · cases hg0
    · have hk : q.1 = p.1 := by
        have h5 := congrArg GroupMember.emoji hq3
        simpa [mkMember] using h5.symm
      have hqp : q = p := List.inj_on_of_nodup_map hnd hq hp hk
      have hnames : g2.name = g.name := by
        rw [← hq2, hqp, hn]
      have hnodup : ((generateGroupData m).map (fun x => x.name)).Nodup :=
        foldl_groupStep_names_nodup m [] (by simp)
      exact List.inj_on_of_nodup_map hnodup hg2 hg hnames
  · have h6 := foldl_groupStep_names m []
    simpa [firstOccur] using h6

/-- A small mapping with a variant record, to witness C7. -/
def demoRec1 : EmojiRecord := ⟨"a", "G1", false, false, false, none, none⟩

/-- A variant record pointing back at `demoRec1`. -/
def demoRec2 : EmojiRecord := ⟨"b", "G1", true, false, true, some [1], none⟩

/-- A second-group record for the C7 witness mapping. -/
def demoRec3 : EmojiRecord := ⟨"c", "G2", false, false, false, none, none⟩

/-- The C7 witness mapping. -/
def demoMap : List (Key × EmojiRecord) := [([1], demoRec1), ([2], demoRec2), ([3], demoRec3)]

theorem C7_group_aggregation_witness :
    (generateGroupData demoMap).map (fun g => g.name)
        = firstOccur (demoMap.map (fun p => p.2.group))
    ∧ ∃ g ∈ generateGroupData demoMap, g.name = "G1" ∧ mkMember [1] demoRec1 ∈ g.emojis :=
  ⟨(C7_group_aggregation demoMap).2.2, by
    obtain ⟨g, hg, hn, hm, _⟩ :=
      (C7_group_aggregation demoMap).2.1 (by decide) ([1], demoRec1) (by decide) rfl
    exact ⟨g, hg, hn, hm⟩⟩
